import Mathlib

set_option maxHeartbeats 1000000

/- Shallow embedding of the insta-quote-bot text-compositing and adaptive
   layout code: utils.py (process_image) and
   src/openai quote generator.py (overlay_quote_on_image), together with a
   model of the parts of the Python standard library textwrap module that
   this code calls, and of the PIL objects it manipulates.  Font metric
   queries (PIL's draw.multiline_textbbox and font.getbbox) are external
   library calls; they are modelled as an abstract, pure measurement
   record (Metrics), exactly as the code treats them: deterministic
   functions of the font object and the text. -/

/-- Python whitespace characters: the set textwrap's replace_whitespace
translates to a space, and the set str.strip removes (restricted to ASCII,
which is all this pipeline produces). -/
def isPyWSChar (c : Char) : Bool :=
  c = ' ' || c = '\t' || c = '\n' || c = '\r' || c = '\x0b' || c = '\x0c'

/-- Model of str.expandtabs(8): each tab becomes spaces up to the next
multiple-of-8 column; newline and carriage return reset the column. -/
def expandtabs : Nat → List Char → List Char
  | _, [] => []
  | col, c :: cs =>
    if c = '\t' then
      List.replicate (8 - col % 8) ' ' ++ expandtabs (col + (8 - col % 8)) cs
    else if c = '\n' ∨ c = '\r' then c :: expandtabs 0 cs
    else c :: expandtabs (col + 1) cs

/-- Model of textwrap's text preparation with the default options
expand_tabs=True and replace_whitespace=True: expand tabs, then map every
whitespace character to a plain space. -/
def normalizeWS (s : List Char) : List Char :=
  (expandtabs 0 s).map (fun c => if isPyWSChar c then ' ' else c)

/-- Longest leading run of characters that agree with the predicate,
together with the remainder. -/
def takeRun (p : Char → Bool) : List Char → List Char × List Char
  | [] => ([], [])
  | c :: cs =>
    if p c then
      match takeRun p cs with
      | (r, rest) => (c :: r, rest)
    else ([], c :: cs)

/-- Chunker used by the textwrap model (fuel-indexed): the normalized text
is cut into maximal runs of spaces and maximal runs of non-spaces, the
chunk alternation textwrap's splitter produces on text with no hyphenated
compound words (the only shape these theorems evaluate). -/
def splitChunksF : Nat → List Char → List (List Char)
  | 0, _ => []
  | _ + 1, [] => []
  | fuel + 1, c :: cs =>
    match takeRun (fun x => (x = ' ') = (c = ' ')) cs with
    | (r, rest) => (c :: r) :: splitChunksF fuel rest

/-- Chunker entry point; the fuel s.length always suffices since every
chunk is nonempty. -/
def splitChunks (s : List Char) : List (List Char) :=
  splitChunksF s.length s

/-- Total character count of a chunk list. -/
def totalLen (l : List (List Char)) : Nat :=
  (l.map List.length).sum

/-- Model of the inner while loop of textwrap._wrap_chunks: move chunks
onto the current line while the accumulated length stays within width. -/
def takeChunks (width : Nat) : Nat → List (List Char) → List (List Char) × List (List Char)
  | _, [] => ([], [])
  | curLen, c :: cs =>
    if curLen + c.length ≤ width then
      match takeChunks width (curLen + c.length) cs with
      | (taken, rest) => (c :: taken, rest)
    else ([], c :: cs)

/-- Model of str.rfind for a hyphen over the slice [0, stop): index of the
last hyphen strictly below stop, if any. -/
def rfindHyphenAux (stop : Nat) : List Char → Nat → Option Nat → Option Nat
  | [], _, acc => acc
  | c :: cs, i, acc =>
    if i < stop ∧ c = '-' then rfindHyphenAux stop cs (i + 1) (some i)
    else rfindHyphenAux stop cs (i + 1) acc

/-- Index of the last hyphen of the chunk strictly before stop. -/
def rfindHyphen (chunk : List Char) (stop : Nat) : Option Nat :=
  rfindHyphenAux stop chunk 0 none

/-- Model of textwrap._handle_long_word with break_long_words=True and
break_on_hyphens=True: split the oversized chunk at the space left on the
current line, preferring the last hyphen inside that window. -/
def handle_long_word (width curLen : Nat) (chunk : List Char) : List Char × List Char :=
  let spaceLeft := if width < 1 then 1 else width - curLen
  let endN :=
    if chunk.length > spaceLeft then
      match rfindHyphen chunk spaceLeft with
      | some h =>
        if 0 < h ∧ (chunk.take h).any (fun c => c ≠ '-') then h + 1 else spaceLeft
      | none => spaceLeft
    else spaceLeft
  (chunk.take endN, chunk.drop endN)

/-- Does this chunk consist of whitespace only (Python chunk.strip() == '')? -/
def isWSChunk (c : List Char) : Bool :=
  c.all (fun x => isPyWSChar x)

/-- Drop one trailing whitespace chunk from the current line
(drop_whitespace=True, end-of-line half). -/
def dropTrailingWS (cur : List (List Char)) : List (List Char) :=
  match cur.getLast? with
  | some l => if isWSChunk l then cur.dropLast else cur
  | none => cur

/-- Drop one leading whitespace chunk (drop_whitespace=True, start-of-line
half, applied only once at least one line has been emitted). -/
def dropLeadingWS (chunks : List (List Char)) : List (List Char) :=
  match chunks with
  | c :: cs => if isWSChunk c then cs else chunks
  | [] => []

/-- One iteration of the outer while loop of textwrap._wrap_chunks: build
the current line greedily, split an oversized next chunk, drop one
trailing whitespace chunk; returns the line's chunks and the remaining
chunks. -/
def wrapOneLine (width : Nat) (chunks : List (List Char)) :
    List (List Char) × List (List Char) :=
  let tc := takeChunks width 0 chunks
  match tc.2 with
  | [] => (dropTrailingWS tc.1, [])
  | c :: cs =>
    if width < c.length then
      let hlw := handle_long_word width (totalLen tc.1) c
      (dropTrailingWS (tc.1 ++ [hlw.1]), hlw.2 :: cs)
    else (dropTrailingWS tc.1, c :: cs)

/-- Model of the outer while loop of textwrap._wrap_chunks (fuel-indexed;
every iteration with remaining chunks consumes at least one character, so
fuel totalLen + 2 is always enough).  emitted records whether a line has
been produced yet, which gates the leading-whitespace drop. -/
def wrapChunksAux (width : Nat) : Nat → Bool → List (List Char) → List (List Char)
  | 0, _, _ => []
  | fuel + 1, emitted, chunks₀ =>
    if chunks₀.isEmpty then []
    else
      let r := wrapOneLine width (if emitted then dropLeadingWS chunks₀ else chunks₀)
      if r.1.isEmpty then wrapChunksAux width fuel emitted r.2
      else r.1.flatten :: wrapChunksAux width fuel true r.2

/-- Model of textwrap.wrap(text, width) with default options: list of
output lines. -/
def py_wrap (width : Nat) (s : List Char) : List (List Char) :=
  let chunks := splitChunks (normalizeWS s)
  wrapChunksAux width (totalLen chunks + 2) false chunks

/-- Join lines with newlines (str.join with a newline separator). -/
def joinNL (ls : List (List Char)) : List Char :=
  List.intercalate ['\n'] ls

/-- Model of textwrap.fill(text, width) with default options. -/
def py_fill (width : Nat) (s : List Char) : List Char :=
  joinNL (py_wrap width s)

/-- Model of str.split for the newline separator, preserving empty pieces
exactly as Python does. -/
def splitOnNL : List Char → List (List Char)
  | [] => [[]]
  | c :: cs =>
    if c = '\n' then [] :: splitOnNL cs
    else
      match splitOnNL cs with
      | [] => [[c]]
      | l :: ls => (c :: l) :: ls

/-- Model of str.strip() with no argument: remove whitespace from both
ends. -/
def pyStrip (s : List Char) : List Char :=
  ((s.dropWhile isPyWSChar).reverse.dropWhile isPyWSChar).reverse

/-- Model of quote.split(" - ", 1) restricted to its success shape: split
at the first occurrence of the quote/attribution separator, returning the
part before it and everything after it; none when the separator is absent
(Python then raises ValueError from tuple unpacking). -/
def splitDash : List Char → Option (List Char × List Char)
  | [] => none
  | c :: cs =>
    if c = ' ' ∧ cs.take 2 = ['-', ' '] then some ([], cs.drop 2)
    else
      match splitDash cs with
      | none => none
      | some (q, a) => some (c :: q, a)

/-- The separator occurs in s at index i. -/
def delimAt (s : List Char) (i : Nat) : Prop :=
  (s.drop i).take 3 = [' ', '-', ' ']

instance (s : List Char) (i : Nat) : Decidable (delimAt s i) := by
  unfold delimAt; infer_instance

/-- Quote/attribution split of overlay_quote_on_image (lines 128-131):
first-occurrence split, with the sentinel attribution when the separator
is missing. -/
def overlay_split (quote : List Char) : List Char × List Char :=
  match splitDash quote with
  | some qa => qa
  | none => (quote, "Unknown".toList)

/-- Quote-text extraction of utils.process_image (lines 98-101): keep the
part before the first separator and discard the rest; keep the whole
string when the separator is missing. -/
def utilsQuoteText (quote : List Char) : List Char :=
  match splitDash quote with
  | some qa => qa.1
  | none => quote

/-- The render string of utils.process_image (line 134):
quote text, newline, dash, space, teacher parameter. -/
def full_text_utils (quote teacher : List Char) : List Char :=
  utilsQuoteText quote ++ '\n' :: '-' :: ' ' :: teacher

/-- The wrapped render text of utils.process_image (lines 136-140): wrap
every newline-separated line of the render string at column 40, join the
pieces back with newlines, and strip the result. -/
def wrapped_text_utils (quote teacher : List Char) : List Char :=
  pyStrip (List.foldl (fun acc l => acc ++ py_fill 40 l ++ ['\n']) []
    (splitOnNL (full_text_utils quote teacher)))

/-- The render string of overlay_quote_on_image (lines 168-169): the quote
part wrapped at column 40, then an unwrapped attribution line from the
split-off teacher name. -/
def full_text_overlay (quote_text teacher : List Char) : List Char :=
  py_fill 40 quote_text ++ '\n' :: '-' :: ' ' :: teacher

/-- Minimal model of a PIL image as the layout code observes one: its
pixel dimensions, its mode string, and the solid fill colour when it was
built by Image.new (none for decoded provider rasters). -/
structure PILImage where
  width : Nat
  height : Nat
  mode : String
  solid : Option (Nat × Nat × Nat)
deriving DecidableEq, Repr

/-- Model of an HTTP response from the Stability AI endpoint as
generate_stable_diffusion_image reads it: the finish-reason header and
the decoded image body (none when PIL cannot decode the payload, which
raises and is caught). -/
structure HTTPResponse where
  finishReason : Option String
  body : Option PILImage
deriving DecidableEq, Repr

/-- Model of generate_stable_diffusion_image (both files, identical
logic): a transport exception or a CONTENT_FILTERED finish-reason header
yields None; otherwise the decoded body converted to RGBA. -/
def generate_stable_diffusion_image (resp : Except String HTTPResponse) : Option PILImage :=
  match resp with
  | .error _ => none
  | .ok r =>
    if r.finishReason = some "CONTENT_FILTERED" then none
    else
      match r.body with
      | none => none
      | some raw => some (PILImage.mk raw.width raw.height "RGBA" raw.solid)

/-- The neutral-gray fallback canvas Image.new("RGB", (1080, 1080),
(50, 50, 50)) built when no provider image is available. -/
def gray_canvas : PILImage :=
  PILImage.mk 1080 1080 "RGB" (some (50, 50, 50))

/-- Background selection shared by both scripts: a missing provider image
becomes the gray fallback canvas, a present one is resized to 1080 x 1080
and converted to RGBA. -/
def chooseBackground (teacher_img : Option PILImage) : PILImage :=
  match teacher_img with
  | none => gray_canvas
  | some i => PILImage.mk 1080 1080 "RGBA" i.solid

/-- Font object as the code distinguishes them: a scalable TrueType font
loaded at a pixel size, or the fixed-size PIL bitmap default font. -/
inductive FontT where
  | truetype (size : Nat)
  | default
deriving DecidableEq, Repr

/-- Model of ImageFont.truetype("Arial.ttf", size): succeeds exactly when
the scalable font resource is available, else raises OSError. -/
def truetypeLoad (avail : Bool) (size : Nat) : Except String FontT :=
  if avail then .ok (.truetype size) else .error "OSError: cannot open resource"

/-- Abstract font measurement record standing for PIL's text metrics:
mlW/mlH are the width and height draw.multiline_textbbox reports for a
font and a (possibly multi-line) text, gbW is the right edge
font.getbbox reports.  The code treats these as pure functions of font
and text, which is exactly what this record is. -/
structure Metrics where
  mlW : FontT → List Char → Nat
  mlH : FontT → List Char → Nat
  gbW : FontT → List Char → Nat

/-- Generic font-size adjustment while loop shared by the four loops of
the two scripts (fuel-indexed; the callers pass fuel beyond the proven
stabilization point, so the value equals the Python while loop's).  Each
iteration whose width guard (on the measured width) and size guard both
hold reloads the TrueType font at the stepped size, which raises when the
font resource is missing — exactly like the Python loop bodies.  Returns
the final font and size together with the number of iterations
executed. -/
def fitLoop (avail : Bool) (meas : FontT → Nat) (wG : Nat → Bool) (sG : Nat → Bool)
    (next : Nat → Nat) : Nat → FontT → Nat → Except String (FontT × Nat × Nat)
  | 0, font, size => .ok (font, size, 0)
  | fuel + 1, font, size =>
    if wG (meas font) && sG size then
      match truetypeLoad avail (next size) with
      | .error e => .error e
      | .ok font₂ =>
        match fitLoop avail meas wG sG next fuel font₂ (next size) with
        | .error e => .error e
        | .ok (f, s, c) => .ok (f, s, c + 1)
    else .ok (font, size, 0)

/-- Shrink loop of utils.process_image (lines 147-152): while the
multiline text width exceeds max_width = int(1080*0.9) = 972 and the size
is above 30, step the size down by 5 and reload the font. -/
def utils_shrink (m : Metrics) (avail : Bool) (w : List Char) (fuel : Nat)
    (font : FontT) (size : Nat) : Except String (FontT × Nat × Nat) :=
  fitLoop avail (fun f => m.mlW f w) (fun tw => 972 < tw) (fun s => 30 < s)
    (fun s => s - 5) fuel font size

/-- Grow loop of utils.process_image (lines 154-159): while the width is
below max_width * 0.85 (an integer width tw satisfies tw < 826.2 exactly
when 100 * tw < 82620) and the size is below 120, step the size up by 5
and reload the font. -/
def utils_grow (m : Metrics) (avail : Bool) (w : List Char) (fuel : Nat)
    (font : FontT) (size : Nat) : Except String (FontT × Nat × Nat) :=
  fitLoop avail (fun f => m.mlW f w) (fun tw => 100 * tw < 82620) (fun s => s < 120)
    (fun s => s + 5) fuel font size

/-- Shrink loop of overlay_quote_on_image (lines 172-174): guarded by
font.getbbox(full_text)[2] > 972 and size > 10, stepping by 2. -/
def overlay_shrink (m : Metrics) (avail : Bool) (w : List Char) (fuel : Nat)
    (font : FontT) (size : Nat) : Except String (FontT × Nat × Nat) :=
  fitLoop avail (fun f => m.gbW f w) (fun tw => 972 < tw) (fun s => 10 < s)
    (fun s => s - 2) fuel font size

/-- Grow loop of overlay_quote_on_image (lines 177-179): guarded by
font.getbbox(full_text)[2] < 972 * 0.8 (for an integer width tw this is
10 * tw < 7776) and size < 120, stepping by 2. -/
def overlay_grow (m : Metrics) (avail : Bool) (w : List Char) (fuel : Nat)
    (font : FontT) (size : Nat) : Except String (FontT × Nat × Nat) :=
  fitLoop avail (fun f => m.gbW f w) (fun tw => 10 * tw < 7776) (fun s => s < 120)
    (fun s => s + 2) fuel font size

/-- Geometry a run computes for one composited output: the wrapped render
text, converged font and size, measured text box, its position, and the
backing panel rectangle. -/
structure Layout where
  wrapped : List Char
  font : FontT
  fontSize : Nat
  textW : Nat
  textH : Nat
  textX : Int
  textY : Int
  rectX1 : Int
  rectY1 : Int
  rectX2 : Int
  rectY2 : Int
deriving DecidableEq, Repr

/-- Text positioning and panel derivation shared shape (utils lines
161-178, overlay lines 186-207): centre horizontally with Python floor
division, place the bottom 100px above the canvas bottom, clamp the top
down to clampY when it would sit higher, then expand by pad on all four
sides for the panel.  Both scripts run on a 1080 x 1080 canvas here. -/
def position_layout (pad : Nat) (clampY : Int) (w : List Char) (font : FontT)
    (size tw th : Nat) : Layout :=
  let text_x : Int := Int.fdiv (1080 - (tw : Int)) 2
  let ty : Int := 1080 - (th : Int) - 100
  let text_y : Int := if ty < clampY then clampY else ty
  Layout.mk w font size tw th text_x text_y
    (text_x - (pad : Int)) (text_y - (pad : Int))
    (text_x + (tw : Int) + (pad : Int)) (text_y + (th : Int) + (pad : Int))

/-- Model of utils.process_image's layout portion (lines 113-178; the
filesystem writes are external).  Font loading (lines 122-129): when
Arial.ttf is available the TrueType font is loaded at size 80, otherwise
the bitmap default font is used and font_size is set to 40.  The shrink
and grow loops then run (the loop bodies call ImageFont.truetype
unconditionally, so they raise when the font is unavailable), the final
box is measured, and the text is positioned with the 0.5-height clamp
(540) and a 40px panel padding.  Returns the chosen background and the
layout. -/
def process_image (m : Metrics) (avail : Bool) (resp : Except String HTTPResponse)
    (quote teacher : List Char) : Except String (PILImage × Layout) := do
  let teacher_img := generate_stable_diffusion_image resp
  let img := chooseBackground teacher_img
  let font₀ : FontT := if avail then .truetype 80 else .default
  let size₀ : Nat := if avail then 80 else 40
  let w := wrapped_text_utils quote teacher
  let (font₁, size₁, _) ← utils_shrink m avail w size₀ font₀ size₀
  let (font₂, size₂, _) ← utils_grow m avail w 120 font₁ size₁
  pure (img, position_layout 40 540 w font₂ size₂ (m.mlW font₂ w) (m.mlH font₂ w))

/-- One iteration of overlay_quote_on_image's provider loop (lines
148-221) for a given fetched image: background selection, shrink and grow
loops from the incoming font state, final multiline measurement,
positioning with the 0.7-height clamp (756) and a 20px panel padding.
Returns the background, the layout, and the font state the next provider
iteration will start from. -/
def overlay_step (m : Metrics) (avail : Bool) (full : List Char) (font : FontT)
    (size : Nat) (img₀ : Option PILImage) :
    Except String (PILImage × Layout × FontT × Nat) := do
  let img := chooseBackground img₀
  let (fontA, sizeA, _) ← overlay_shrink m avail full size font size
  let (fontB, sizeB, _) ← overlay_grow m avail full 120 fontA sizeA
  pure (img, position_layout 20 756 full fontB sizeB (m.mlW fontB full) (m.mlH fontB full),
    fontB, sizeB)

/-- Model of overlay_quote_on_image (lines 126-221): split the provider
string, load the font once before the provider loop (on fallback the
bitmap font is used but font_size keeps its initial value 80), then
process the OpenAI image and the Stability image in order, threading the
font state from one iteration into the next.  The Stability image comes
from generate_stable_diffusion_image applied to its HTTP outcome. -/
def overlay_quote_on_image (m : Metrics) (avail : Bool) (quote : List Char)
    (openai_img : Option PILImage) (sd_resp : Except String HTTPResponse) :
    Except String (List (PILImage × Layout)) := do
  let qa := overlay_split quote
  let font₀ : FontT := if avail then .truetype 80 else .default
  let size₀ : Nat := 80
  let full := full_text_overlay qa.1 qa.2
  let (img₁, l₁, font₁, size₁) ← overlay_step m avail full font₀ size₀ openai_img
  let (img₂, l₂, _, _) ← overlay_step m avail full font₁ size₁
    (generate_stable_diffusion_image sd_resp)
  pure [(img₁, l₁), (img₂, l₂)]

/-- Constant measurement record: every query returns the same fixed width,
height, and getbbox right edge.  Used to evaluate the pipelines at
explicit measurement outcomes. -/
def mConst (wv hv gv : Nat) : Metrics :=
  Metrics.mk (fun _ _ => wv) (fun _ _ => hv) (fun _ _ => gv)

/-- Measurement outcome of PIL's tiny fixed-size bitmap default font on a
short wrapped quote: roughly a hundred pixels wide, a couple of text
lines high — far below every grow threshold. -/
def mTiny : Metrics := mConst 100 20 100

/-- Measurement outcome where the text at the converged size is 900 px
wide (inside both loops' dead zone) and 400 px tall. -/
def mTall : Metrics := mConst 900 400 900

/-- Measurement outcome with width 900 px and height 600 px. -/
def mTall2 : Metrics := mConst 900 600 900

/-- Measurement outcome with width 900 px and height 300 px. -/
def mMid : Metrics := mConst 900 300 900

/-- Width measurements that overshoot in one shrink step: 1000 px at
TrueType size 80, 500 px at every other size. -/
def mOsc : Metrics :=
  Metrics.mk
    (fun f _ => match f with | .truetype s => if s = 80 then 1000 else 500 | .default => 500)
    (fun _ _ => 100)
    (fun f _ => match f with | .truetype s => if s = 80 then 1000 else 500 | .default => 500)

/-- Width measurements proportional to the font size (13 px per point):
every 5-point shrink step keeps at least 85 percent of the width on the
sizes the shrink loop can visit. -/
def mLin : Metrics :=
  Metrics.mk
    (fun f _ => match f with | .truetype s => 13 * s | .default => 500)
    (fun _ _ => 100)
    (fun f _ => match f with | .truetype s => 13 * s | .default => 500)

/-- Sample provider string used for concrete runs. -/
def cexQuote : List Char := "Be here now - Ram Dass".toList

/-- Sample teacher argument used for concrete runs. -/
def cexTeacher : List Char := "Ram Dass".toList

/-- A failed portrait request (transport error caught by the code). -/
def respFail : Except String HTTPResponse := .error "request failed"

/-- A portrait response rejected by the provider's safety classifier. -/
def respFiltered : Except String HTTPResponse :=
  .ok (HTTPResponse.mk (some "CONTENT_FILTERED") (some (PILImage.mk 1024 1024 "RGB" none)))

/-- A single word of 41 letters, one more than the wrap column. -/
def longWord : List Char := List.replicate 41 'a'

theorem totalLen_cons (c : List Char) (l : List (List Char)) :
    totalLen (c :: l) = c.length + totalLen l := by
  simp [totalLen]

theorem totalLen_append (l₁ l₂ : List (List Char)) :
    totalLen (l₁ ++ l₂) = totalLen l₁ + totalLen l₂ := by
  simp [totalLen]

theorem totalLen_dropLast_le (l : List (List Char)) :
    totalLen l.dropLast ≤ totalLen l := by
  induction l with
  | nil => simp
  | cons c cs ih =>
    cases cs with
    | nil => simp [totalLen]
    | cons d ds =>
      rw [totalLen_cons] at ih
      simp only [List.dropLast_cons₂, totalLen_cons]
      omega

theorem dropTrailingWS_le (cur : List (List Char)) :
    totalLen (dropTrailingWS cur) ≤ totalLen cur := by
  unfold dropTrailingWS
  cases cur.getLast? with
  | none => exact le_refl _
  | some l =>
    by_cases h : isWSChunk l
    · simp only [h, if_true]
      exact totalLen_dropLast_le cur
    · simp [h]

theorem flatten_length_eq_totalLen (l : List (List Char)) :
    l.flatten.length = totalLen l := by
  simp [totalLen]

theorem takeChunks_le (w : Nat) :
    ∀ (chunks : List (List Char)) (cur : Nat),
      (takeChunks w cur chunks).1 = [] ∨ cur + totalLen (takeChunks w cur chunks).1 ≤ w := by
  intro chunks
  induction chunks with
  | nil => intro cur; left; rfl
  | cons c cs ih =>
    intro cur
    by_cases h : cur + c.length ≤ w
    · rcases htc : takeChunks w (cur + c.length) cs with ⟨taken, rest⟩
      right
      simp only [takeChunks, h, if_true, htc]
      rcases ih (cur + c.length) with h0 | h1
      · rw [htc] at h0
        simp only at h0
        subst h0
        simpa [totalLen_cons, totalLen] using h
      · rw [htc] at h1
        simp only at h1
        simp only [totalLen_cons]
        omega
    · left
      simp [takeChunks, h]

theorem rfindHyphenAux_lt (stop : Nat) :
    ∀ (l : List Char) (i : Nat) (acc : Option Nat) (h : Nat),
      (∀ x, acc = some x → x < stop) →
      rfindHyphenAux stop l i acc = some h → h < stop := by
  intro l
  induction l with
  | nil => intro i acc h hacc he; exact hacc h he
  | cons c cs ih =>
    intro i acc h hacc he
    simp only [rfindHyphenAux] at he
    split at he
    · rename_i hcond
      refine ih (i + 1) (some i) h ?_ he
      intro x hx
      cases hx
      exact hcond.1
    · exact ih (i + 1) acc h hacc he

theorem rfindHyphen_lt (c : List Char) (stop h : Nat) :
    rfindHyphen c stop = some h → h < stop := by
  intro he
  exact rfindHyphenAux_lt stop c 0 none h (by intro x hx; cases hx) he

theorem handle_long_word_le (w curLen : Nat) (c : List Char) (hw : 1 ≤ w)
    (hcur : curLen ≤ w) : (handle_long_word w curLen c).1.length + curLen ≤ w := by
  have hnot : ¬ w < 1 := by omega
  have hgen : ∀ endN, endN ≤ w - curLen → (c.take endN).length + curLen ≤ w := by
    intro endN he
    have hlt := List.length_take endN c
    omega
  simp only [handle_long_word, hnot, if_false]
  split
  · split
    · next h heq =>
      split
      · have hlt := rfindHyphen_lt c (w - curLen) h heq
        exact hgen (h + 1) (by omega)
      · exact hgen _ (le_refl _)
    · exact hgen _ (le_refl _)
  · exact hgen _ (le_refl _)

theorem wrapOneLine_le (w : Nat) (hw : 1 ≤ w) (chunks : List (List Char)) :
    totalLen (wrapOneLine w chunks).1 ≤ w := by
  have hcur : totalLen (takeChunks w 0 chunks).1 ≤ w := by
    rcases takeChunks_le w chunks 0 with h | h
    · rw [h]; simp [totalLen]
    · simpa using h
  simp only [wrapOneLine]
  split
  · exact le_trans (dropTrailingWS_le _) hcur
  · next c cs heq =>
    split
    · refine le_trans (dropTrailingWS_le _) ?_
      have hb := handle_long_word_le w (totalLen (takeChunks w 0 chunks).1) c hw hcur
      rw [totalLen_append]
      have h1 : totalLen [(handle_long_word w (totalLen (takeChunks w 0 chunks).1) c).1] =
          (handle_long_word w (totalLen (takeChunks w 0 chunks).1) c).1.length := by
        simp [totalLen]
      omega
    · exact le_trans (dropTrailingWS_le _) hcur

theorem wrapChunksAux_le (w : Nat) (hw : 1 ≤ w) :
    ∀ (fuel : Nat) (emitted : Bool) (chunks : List (List Char)) (l : List Char),
      l ∈ wrapChunksAux w fuel emitted chunks → l.length ≤ w := by
  intro fuel
  induction fuel with
  | zero =>
    intro emitted chunks l hl
    simp [wrapChunksAux] at hl
  | succ n ih =>
    intro emitted chunks l hl
    simp only [wrapChunksAux] at hl
    split at hl
    · simp at hl
    · split at hl <;> split at hl
      · exact ih _ _ _ hl
      · rcases List.mem_cons.mp hl with hl | hl
        · subst hl
          rw [flatten_length_eq_totalLen]
          exact wrapOneLine_le w hw _
        · exact ih _ _ _ hl
      · exact ih _ _ _ hl
      · rcases List.mem_cons.mp hl with hl | hl
        · subst hl
          rw [flatten_length_eq_totalLen]
          exact wrapOneLine_le w hw _
        · exact ih _ _ _ hl

/-- C4 (amended): for every wrap width w ≥ 1 and every input string, the
greedy wrapping used by both scripts (textwrap.fill with default options)
never produces a line longer than w characters — including for single
words longer than w, which are broken into pieces of at most w characters
rather than passed through unbroken. -/
theorem wrap_line_length_bounded (w : Nat) (hw : 1 ≤ w) (s : List Char) :
    ∀ l ∈ py_wrap w s, l.length ≤ w := by
  intro l hl
  exact wrapChunksAux_le w hw _ false _ l hl

theorem wrap_line_length_bounded_witness :
    1 ≤ 40 ∧ List.replicate 40 'a' ∈ py_wrap 40 longWord ∧
      (List.replicate 40 'a').length ≤ 40 :=
  ⟨by decide, by decide,
    wrap_line_length_bounded 40 (by decide) longWord (List.replicate 40 'a') (by decide)⟩

/-- C4 counterexample: a single 41-character word wrapped at the code's
column width 40 is broken into a 40-character line and a 1-character
line; it does not pass through unbroken as its own line, contrary to the
claim's exception clause. -/
theorem long_word_not_unbroken_cex :
    py_wrap 40 longWord = [List.replicate 40 'a', ['a']] ∧
      longWord ∉ py_wrap 40 longWord := by
  constructor
  · decide
  · decide

theorem splitDash_none_no_delim :
    ∀ (s : List Char), splitDash s = none → ∀ i, ¬ delimAt s i := by
  intro s
  induction s with
  | nil =>
    intro _ i h
    simp [delimAt] at h
  | cons c cs ih =>
    intro hn i h
    simp only [splitDash] at hn
    split at hn
    · exact absurd hn (by simp)
    · next hcond =>
      cases i with
      | zero =>
        simp only [delimAt, List.drop_zero] at h
        apply hcond
        cases cs with
        | nil => simp at h
        | cons d ds =>
          cases ds with
          | nil => simp at h
          | cons e es =>
            simp [List.take] at h
            exact ⟨h.1, by simp [h.2.1, h.2.2]⟩
      | succ j =>
        have : splitDash cs = none := by
          rcases hsc : splitDash cs with _ | ⟨q, a⟩
          · rfl
          · rw [hsc] at hn; simp at hn
        exact ih this j (by simpa [delimAt] using h)

theorem splitDash_some_first :
    ∀ (s q a : List Char), splitDash s = some (q, a) →
      q = s.take q.length ∧ a = s.drop (q.length + 3) ∧
      delimAt s q.length ∧ ∀ j, j < q.length → ¬ delimAt s j := by
  intro s
  induction s with
  | nil => intro q a h; simp [splitDash] at h
  | cons c cs ih =>
    intro q a h
    simp only [splitDash] at h
    split at h
    · next hcond =>
      injection h with h'
      injection h' with e1 e2
      subst e1; subst e2
      refine ⟨rfl, ?_, ?_, ?_⟩
      · simp [List.drop_succ_cons]
      · simp only [delimAt, List.length_nil, List.drop_zero]
        cases cs with
        | nil => simp at hcond
        | cons d ds =>
          cases ds with
          | nil => simp at hcond
          | cons e es =>
            simp [List.take] at hcond ⊢
            exact ⟨hcond.1, hcond.2.1, hcond.2.2⟩
      · intro j hj; simp at hj
    · next hcond =>
      rcases hsc : splitDash cs with _ | ⟨q', a'⟩
      · rw [hsc] at h; simp at h
      · rw [hsc] at h
        simp only at h
        injection h with h'
        injection h' with e1 e2
        subst e1; subst e2
        obtain ⟨hq, ha, hd, hmin⟩ := ih q' a' hsc
        refine ⟨?_, ?_, ?_, ?_⟩
        · simp only [List.length_cons, List.take_succ_cons]
          exact congrArg (c :: ·) hq
        · simpa [List.drop_succ_cons] using ha
        · simpa [delimAt, List.length_cons, List.drop_succ_cons] using hd
        · intro j hj
          cases j with
          | zero =>
            intro hdel
            apply hcond
            simp only [delimAt, List.drop_zero] at hdel
            cases cs with
            | nil => simp at hdel
            | cons d ds =>
              cases ds with
              | nil => simp at hdel
              | cons e es =>
                simp [List.take] at hdel
                exact ⟨hdel.1, by simp [hdel.2.1, hdel.2.2]⟩
          | succ j' =>
            intro hdel
            exact hmin j' (by simpa using hj) (by simpa [delimAt] using hdel)

/-- C8: for every provider string, overlay_quote_on_image splits it at the
first occurrence of the separator " - " into quote text and attribution;
when the separator is absent the whole string becomes the quote text and
the attribution is the sentinel "Unknown". -/
theorem overlay_split_first_occurrence (s : List Char) :
    ((∀ i, ¬ delimAt s i) ∧ overlay_split s = (s, "Unknown".toList)) ∨
    (∃ i, delimAt s i ∧ (∀ j, j < i → ¬ delimAt s j) ∧
      overlay_split s = (s.take i, s.drop (i + 3))) := by
  rcases hs : splitDash s with _ | ⟨q, a⟩
  · left
    exact ⟨splitDash_none_no_delim s hs, by simp [overlay_split, hs]⟩
  · right
    obtain ⟨hq, ha, hd, hmin⟩ := splitDash_some_first s q a hs
    exact ⟨q.length, hd, hmin, by simp [overlay_split, hs, ← hq, ← ha]⟩

theorem splitDash_append_first (a b : List Char)
    (h : ∀ i, i < a.length → ¬ delimAt (a ++ ' ' :: '-' :: ' ' :: b) i) :
    splitDash (a ++ ' ' :: '-' :: ' ' :: b) = some (a, b) := by
  have hdrop : (a ++ ' ' :: '-' :: ' ' :: b).drop a.length = ' ' :: '-' :: ' ' :: b :=
    List.drop_left a _
  have hdel : delimAt (a ++ ' ' :: '-' :: ' ' :: b) a.length := by
    simp [delimAt, hdrop, List.take]
  rcases hsc : splitDash (a ++ ' ' :: '-' :: ' ' :: b) with _ | ⟨q, a'⟩
  · exact absurd hdel (splitDash_none_no_delim _ hsc a.length)
  · obtain ⟨hq, ha, hd, hmin⟩ := splitDash_some_first _ q a' hsc
    have hlen : q.length = a.length := by
      by_contra hne
      rcases Nat.lt_or_ge q.length a.length with hlt | hge
      · exact h q.length hlt hd
      · exact hmin a.length (by omega) hdel
    rw [hlen] at hq ha
    have hqa : q = a := by rw [hq, List.take_left]
    have hab : a' = b := by
      rw [ha, ← List.drop_drop, hdrop]
      simp [List.drop_succ_cons]
    rw [hqa, hab]

/-- C10: utils.process_image renders the attribution line from the
teacher parameter prefixed by a dash; whatever follows the first " - "
inside the quote string is split off and discarded, never entering the
render string. -/
theorem utils_attribution_from_parameter (a b t : List Char)
    (h : ∀ i, i < a.length → ¬ delimAt (a ++ ' ' :: '-' :: ' ' :: b) i) :
    full_text_utils (a ++ ' ' :: '-' :: ' ' :: b) t = a ++ '\n' :: '-' :: ' ' :: t := by
  unfold full_text_utils utilsQuoteText
  rw [splitDash_append_first a b h]

theorem utils_attribution_from_parameter_witness :
    full_text_utils ("Be here now".toList ++ ' ' :: '-' :: ' ' :: "Ram Dass".toList)
        "Buddha".toList =
      "Be here now".toList ++ '\n' :: '-' :: ' ' :: "Buddha".toList :=
  utils_attribution_from_parameter "Be here now".toList "Ram Dass".toList "Buddha".toList
    (by decide)

theorem fitLoop_guard_false (avail : Bool) (meas : FontT → Nat) (wG sG : Nat → Bool)
    (next : Nat → Nat) (f : FontT) (s : Nat)
    (hg : (wG (meas f) && sG s) = false) :
    ∀ fuel, fitLoop avail meas wG sG next fuel f s = .ok (f, s, 0) := by
  intro fuel
  cases fuel with
  | zero => rfl
  | succ k => simp [fitLoop, hg]

theorem fitLoop_fired (avail : Bool) (meas : FontT → Nat) (wG sG : Nat → Bool)
    (next : Nat → Nat) (fuel : Nat) (f : FontT) (s : Nat) (f' : FontT) (s' c : Nat)
    (h : fitLoop avail meas wG sG next fuel f s = .ok (f', s', c)) (hc : 1 ≤ c) :
    (wG (meas f) && sG s) = true := by
  cases hg : (wG (meas f) && sG s)
  · rw [fitLoop_guard_false avail meas wG sG next f s hg fuel] at h
    injection h with h'
    injection h' with e1 e2
    injection e2 with e3 e4
    omega
  · rfl

theorem fitLoop_error_noavail (meas : FontT → Nat) (wG sG : Nat → Bool)
    (next : Nat → Nat) (f : FontT) (s : Nat)
    (hg : (wG (meas f) && sG s) = true) :
    ∀ fuel, 1 ≤ fuel →
      fitLoop false meas wG sG next fuel f s = .error "OSError: cannot open resource" := by
  intro fuel hf
  cases fuel with
  | zero => omega
  | succ k => simp [fitLoop, hg, truetypeLoad]

theorem fitLoop_avail_ok (meas : FontT → Nat) (wG sG : Nat → Bool) (next : Nat → Nat) :
    ∀ (fuel : Nat) (f : FontT) (s : Nat),
      ∃ f' s' c, fitLoop true meas wG sG next fuel f s = .ok (f', s', c) := by
  intro fuel
  induction fuel with
  | zero => intro f s; exact ⟨f, s, 0, rfl⟩
  | succ k ih =>
    intro f s
    cases hg : (wG (meas f) && sG s)
    · exact ⟨f, s, 0, fitLoop_guard_false true meas wG sG next f s hg (k + 1)⟩
    · obtain ⟨f', s', c, hr⟩ := ih (.truetype (next s)) (next s)
      exact ⟨f', s', c + 1, by simp [fitLoop, hg, truetypeLoad, hr]⟩

theorem fitLoop_stable (avail : Bool) (meas : FontT → Nat) (wG sG : Nat → Bool)
    (next : Nat → Nat) (r : Nat → Nat)
    (hr : ∀ s, sG s = true → 0 < r s ∧ r (next s) < r s) :
    ∀ (n : Nat) (f : FontT) (s : Nat) (extra : Nat), r s ≤ n →
      fitLoop avail meas wG sG next (n + extra) f s =
        fitLoop avail meas wG sG next n f s := by
  intro n
  induction n with
  | zero =>
    intro f s extra hrs
    have hg : (wG (meas f) && sG s) = false := by
      cases hsg : sG s
      · simp [hsg]
      · exact absurd (hr s hsg).1 (by omega)
    rw [Nat.zero_add, fitLoop_guard_false avail meas wG sG next f s hg extra]
    rfl
  | succ k ih =>
    intro f s extra hrs
    cases hg : (wG (meas f) && sG s)
    · rw [fitLoop_guard_false avail meas wG sG next f s hg (k + 1 + extra),
        fitLoop_guard_false avail meas wG sG next f s hg (k + 1)]
    · have hsg : sG s = true := by
        revert hg
        cases sG s <;> simp
      have hle : r (next s) ≤ k := by
        have := (hr s hsg).2
        omega
      have hstep : k + 1 + extra = (k + extra) + 1 := by omega
      rw [hstep]
      cases havail : avail
      · subst havail
        rw [fitLoop_error_noavail meas wG sG next f s hg ((k + extra) + 1) (by omega),
          fitLoop_error_noavail meas wG sG next f s hg (k + 1) (by omega)]
      · subst havail
        simp only [fitLoop, hg, if_true, truetypeLoad]
        rw [ih (.truetype (next s)) (next s) extra hle]

theorem fitLoop_count_le (avail : Bool) (meas : FontT → Nat) (wG sG : Nat → Bool)
    (next : Nat → Nat) (r : Nat → Nat)
    (hr : ∀ s, sG s = true → 0 < r s ∧ r (next s) < r s) :
    ∀ (fuel : Nat) (n : Nat) (f : FontT) (s : Nat) (f' : FontT) (s' c : Nat),
      r s ≤ n → fitLoop avail meas wG sG next fuel f s = .ok (f', s', c) → c ≤ n := by
  intro fuel
  induction fuel with
  | zero =>
    intro n f s f' s' c hrs h
    injection h with h'
    injection h' with e1 e2
    injection e2 with e3 e4
    omega
  | succ k ih =>
    intro n f s f' s' c hrs h
    cases hg : (wG (meas f) && sG s)
    · rw [fitLoop_guard_false avail meas wG sG next f s hg (k + 1)] at h
      injection h with h'
      injection h' with e1 e2
      injection e2 with e3 e4
      omega
    · have hsg : sG s = true := by
        revert hg
        cases sG s <;> simp
      have hpos : 0 < r s := (hr s hsg).1
      have hle : r (next s) ≤ n - 1 := by
        have := (hr s hsg).2
        omega
      cases havail : avail
      · subst havail
        rw [fitLoop_error_noavail meas wG sG next f s hg (k + 1) (by omega)] at h
        exact absurd h (by simp)
      · subst havail
        simp only [fitLoop, hg, if_true, truetypeLoad] at h
        rcases hin : fitLoop true meas wG sG next k (.truetype (next s)) (next s) with e | ⟨f'', s'', c''⟩
        · rw [hin] at h
          exact absurd h (by simp)
        · rw [hin] at h
          simp only at h
          injection h with h'
          injection h' with e1 e2
          injection e2 with e3 e4
          have := ih (n - 1) (.truetype (next s)) (next s) f'' s'' c'' hle hin
          omega

theorem fitLoop_shrink_exit (avail : Bool) (meas : FontT → Nat) (wG sG : Nat → Bool)
    (δ : Nat) (hsg : ∀ s, sG s = true → δ ≤ s) :
    ∀ (fuel s : Nat) (f' : FontT) (s' c : Nat),
      fitLoop avail meas wG sG (fun t => t - δ) fuel (.truetype s) s = .ok (f', s', c) →
      (c = 0 ∧ f' = .truetype s ∧ s' = s) ∨
      (1 ≤ c ∧ f' = .truetype s' ∧ s' + δ ≤ s ∧ δ ∣ (s - s') ∧
        wG (meas (.truetype (s' + δ))) = true ∧ sG (s' + δ) = true) := by
  intro fuel
  induction fuel with
  | zero =>
    intro s f' s' c h
    injection h with h'
    injection h' with e1 e2
    injection e2 with e3 e4
    exact Or.inl ⟨e4.symm, e1.symm, e3.symm⟩
  | succ k ih =>
    intro s f' s' c h
    cases hg : (wG (meas (.truetype s)) && sG s)
    · rw [fitLoop_guard_false avail meas wG sG _ (.truetype s) s hg (k + 1)] at h
      injection h with h'
      injection h' with e1 e2
      injection e2 with e3 e4
      exact Or.inl ⟨e4.symm, e1.symm, e3.symm⟩
    · have hw1 : wG (meas (.truetype s)) = true := by
        revert hg
        cases wG (meas (.truetype s)) <;> simp
      have hw2 : sG s = true := by
        revert hg
        cases sG s <;> simp
      have hds : δ ≤ s := hsg s hw2
      cases havail : avail
      · subst havail
        rw [fitLoop_error_noavail meas wG sG _ (.truetype s) s hg (k + 1) (by omega)] at h
        exact absurd h (by simp)
      · subst havail
        simp only [fitLoop, hg, if_true, truetypeLoad] at h
        rcases hin : fitLoop true meas wG sG (fun t => t - δ) k (.truetype (s - δ)) (s - δ)
          with e | ⟨f'', s'', c''⟩
        · rw [hin] at h
          exact absurd h (by simp)
        · rw [hin] at h
          simp only at h
          injection h with h'
          injection h' with e1 e2
          injection e2 with e3 e4
          rcases ih (s - δ) f'' s'' c'' hin with ⟨hc0, hf, hs⟩ | ⟨hc1, hf, hle, hdvd, hwg, hsg2⟩
          · right
            rw [← e1, ← e3, hf, hs]
            refine ⟨by omega, rfl, by omega, ?_, ?_, ?_⟩
            · have hsub : s - (s - δ) = δ := by omega
              rw [hsub]
            · have hsum : s - δ + δ = s := by omega
              rw [hsum]
              exact hw1
            · have hsum : s - δ + δ = s := by omega
              rw [hsum]
              exact hw2
          · right
            subst e1
            subst e3
            rw [hf]
            refine ⟨by omega, rfl, by omega, ?_, hwg, hsg2⟩
            have heq : s - s'' = ((s - δ) - s'') + δ := by omega
            rw [heq]
            exact Nat.dvd_add hdvd (dvd_refl δ)

theorem fitLoop_count_after_overshoot (avail : Bool) (meas : FontT → Nat)
    (wG sG : Nat → Bool) (next : Nat → Nat) (f : FontT) (s : Nat)
    (hwg : wG (meas (.truetype (next s))) = false) :
    ∀ (fuel : Nat) (f' : FontT) (s' c : Nat),
      fitLoop avail meas wG sG next fuel f s = .ok (f', s', c) → c ≤ 1 := by
  intro fuel f' s' c h
  cases fuel with
  | zero =>
    injection h with h'
    injection h' with e1 e2
    injection e2 with e3 e4
    omega
  | succ k =>
    cases hg : (wG (meas f) && sG s)
    · rw [fitLoop_guard_false avail meas wG sG next f s hg (k + 1)] at h
      injection h with h'
      injection h' with e1 e2
      injection e2 with e3 e4
      omega
    · cases havail : avail
      · subst havail
        rw [fitLoop_error_noavail meas wG sG next f s hg (k + 1) (by omega)] at h
        exact absurd h (by simp)
      · subst havail
        simp only [fitLoop, hg, if_true, truetypeLoad] at h
        rw [fitLoop_guard_false true meas wG sG next (.truetype (next s)) (next s)
          (by simp [hwg]) k] at h
        simp only at h
        injection h with h'
        injection h' with e1 e2
        injection e2 with e3 e4
        omega

theorem fitLoop_stable_after_overshoot (avail : Bool) (meas : FontT → Nat)
    (wG sG : Nat → Bool) (next : Nat → Nat) (f : FontT) (s : Nat)
    (hwg : wG (meas (.truetype (next s))) = false) :
    ∀ (fuel extra : Nat), 1 ≤ fuel →
      fitLoop avail meas wG sG next (fuel + extra) f s =
        fitLoop avail meas wG sG next fuel f s := by
  intro fuel extra hf
  cases hg : (wG (meas f) && sG s)
  · rw [fitLoop_guard_false avail meas wG sG next f s hg (fuel + extra),
      fitLoop_guard_false avail meas wG sG next f s hg fuel]
  · cases havail : avail
    · subst havail
      rw [fitLoop_error_noavail meas wG sG next f s hg (fuel + extra) (by omega),
        fitLoop_error_noavail meas wG sG next f s hg fuel (by omega)]
    · subst havail
      cases fuel with
      | zero => omega
      | succ k =>
        have hstep : k + 1 + extra = (k + extra) + 1 := by omega
        rw [hstep]
        simp only [fitLoop, hg, if_true, truetypeLoad]
        rw [fitLoop_guard_false true meas wG sG next (.truetype (next s)) (next s)
            (by simp [hwg]) (k + extra),
          fitLoop_guard_false true meas wG sG next (.truetype (next s)) (next s)
            (by simp [hwg]) k]

theorem utils_shrink_rank (s : Nat) (hs : decide (30 < s) = true) :
    0 < (s - 26) / 5 ∧ ((s - 5) - 26) / 5 < (s - 26) / 5 := by
  have h : 30 < s := of_decide_eq_true hs
  constructor
  · exact Nat.div_pos (by omega) (by norm_num)
  · have e1 : s - 5 - 26 = s - 31 := by omega
    have e2 : s - 26 = (s - 31) + 5 := by omega
    rw [e1, e2, Nat.add_div_right _ (by norm_num)]
    omega

theorem utils_grow_rank (s : Nat) (hs : decide (s < 120) = true) :
    0 < (124 - s) / 5 ∧ (124 - (s + 5)) / 5 < (124 - s) / 5 := by
  have h : s < 120 := of_decide_eq_true hs
  constructor
  · exact Nat.div_pos (by omega) (by norm_num)
  · have e1 : 124 - (s + 5) = 119 - s := by omega
    have e2 : 124 - s = (119 - s) + 5 := by omega
    rw [e1, e2, Nat.add_div_right _ (by norm_num)]
    omega

theorem overlay_shrink_rank (s : Nat) (hs : decide (10 < s) = true) :
    0 < (s - 9) / 2 ∧ ((s - 2) - 9) / 2 < (s - 9) / 2 := by
  have h : 10 < s := of_decide_eq_true hs
  constructor
  · exact Nat.div_pos (by omega) (by norm_num)
  · have e1 : s - 2 - 9 = s - 11 := by omega
    have e2 : s - 9 = (s - 11) + 2 := by omega
    rw [e1, e2, Nat.add_div_right _ (by norm_num)]
    omega

theorem overlay_grow_rank (s : Nat) (hs : decide (s < 120) = true) :
    0 < (121 - s) / 2 ∧ (121 - (s + 2)) / 2 < (121 - s) / 2 := by
  have h : s < 120 := of_decide_eq_true hs
  constructor
  · exact Nat.div_pos (by omega) (by norm_num)
  · have e1 : 121 - (s + 2) = 119 - s := by omega
    have e2 : 121 - s = (119 - s) + 2 := by omega
    rw [e1, e2, Nat.add_div_right _ (by norm_num)]
    omega

theorem utils_shrink_stable (m : Metrics) (avail : Bool) (w : List Char) (f : FontT)
    (s extra : Nat) :
    utils_shrink m avail w (s + extra) f s = utils_shrink m avail w s f s := by
  unfold utils_shrink
  exact fitLoop_stable avail _ _ _ _ (fun t => (t - 26) / 5)
    (fun t ht => utils_shrink_rank t ht) s f s extra
    (le_trans (Nat.div_le_self _ _) (by omega))

theorem utils_grow_stable (m : Metrics) (avail : Bool) (w : List Char) (f : FontT)
    (s extra : Nat) :
    utils_grow m avail w (120 + extra) f s = utils_grow m avail w 120 f s := by
  unfold utils_grow
  refine fitLoop_stable avail _ _ _ _ (fun t => (124 - t) / 5)
    (fun t ht => utils_grow_rank t ht) 120 f s extra ?_
  show (124 - s) / 5 ≤ 120
  have : (124 - s) / 5 ≤ 124 / 5 := Nat.div_le_div_right (by omega)
  omega

theorem overlay_shrink_stable (m : Metrics) (avail : Bool) (w : List Char) (f : FontT)
    (s extra : Nat) :
    overlay_shrink m avail w (s + extra) f s = overlay_shrink m avail w s f s := by
  unfold overlay_shrink
  exact fitLoop_stable avail _ _ _ _ (fun t => (t - 9) / 2)
    (fun t ht => overlay_shrink_rank t ht) s f s extra
    (le_trans (Nat.div_le_self _ _) (by omega))

theorem overlay_grow_stable (m : Metrics) (avail : Bool) (w : List Char) (f : FontT)
    (s extra : Nat) :
    overlay_grow m avail w (120 + extra) f s = overlay_grow m avail w 120 f s := by
  unfold overlay_grow
  refine fitLoop_stable avail _ _ _ _ (fun t => (121 - t) / 2)
    (fun t ht => overlay_grow_rank t ht) 120 f s extra ?_
  show (121 - s) / 2 ≤ 120
  have : (121 - s) / 2 ≤ 121 / 2 := Nat.div_le_div_right (by omega)
  omega

theorem utils_shrink_count (m : Metrics) (avail : Bool) (w : List Char) (fuel : Nat)
    (f : FontT) (s : Nat) (f₁ : FontT) (s₁ c₁ : Nat)
    (h : utils_shrink m avail w fuel f s = .ok (f₁, s₁, c₁)) : c₁ ≤ (s - 26) / 5 := by
  unfold utils_shrink at h
  exact fitLoop_count_le avail _ _ _ _ (fun t => (t - 26) / 5)
    (fun t ht => utils_shrink_rank t ht) fuel _ f s f₁ s₁ c₁ (le_refl _) h

theorem overlay_shrink_count (m : Metrics) (avail : Bool) (w : List Char) (fuel : Nat)
    (f : FontT) (s : Nat) (f₁ : FontT) (s₁ c₁ : Nat)
    (h : overlay_shrink m avail w fuel f s = .ok (f₁, s₁, c₁)) : c₁ ≤ (s - 9) / 2 := by
  unfold overlay_shrink at h
  exact fitLoop_count_le avail _ _ _ _ (fun t => (t - 9) / 2)
    (fun t ht => overlay_shrink_rank t ht) fuel _ f s f₁ s₁ c₁ (le_refl _) h

theorem utils_shrink_guard_false (m : Metrics) (avail : Bool) (w : List Char) (f : FontT)
    (s : Nat) (hg : (decide (972 < m.mlW f w) && decide (30 < s)) = false) (fuel : Nat) :
    utils_shrink m avail w fuel f s = .ok (f, s, 0) := by
  unfold utils_shrink
  exact fitLoop_guard_false avail (fun f => m.mlW f w) _ _ _ f s hg fuel

theorem utils_grow_guard_false (m : Metrics) (avail : Bool) (w : List Char) (f : FontT)
    (s : Nat) (hg : (decide (100 * m.mlW f w < 82620) && decide (s < 120)) = false)
    (fuel : Nat) : utils_grow m avail w fuel f s = .ok (f, s, 0) := by
  unfold utils_grow
  exact fitLoop_guard_false avail (fun f => m.mlW f w) _ _ _ f s hg fuel

theorem overlay_shrink_guard_false (m : Metrics) (avail : Bool) (w : List Char) (f : FontT)
    (s : Nat) (hg : (decide (972 < m.gbW f w) && decide (10 < s)) = false) (fuel : Nat) :
    overlay_shrink m avail w fuel f s = .ok (f, s, 0) := by
  unfold overlay_shrink
  exact fitLoop_guard_false avail (fun f => m.gbW f w) _ _ _ f s hg fuel

theorem overlay_grow_guard_false (m : Metrics) (avail : Bool) (w : List Char) (f : FontT)
    (s : Nat) (hg : (decide (10 * m.gbW f w < 7776) && decide (s < 120)) = false)
    (fuel : Nat) : overlay_grow m avail w fuel f s = .ok (f, s, 0) := by
  unfold overlay_grow
  exact fitLoop_guard_false avail (fun f => m.gbW f w) _ _ _ f s hg fuel

theorem utils_grow_error (m : Metrics) (w : List Char) (f : FontT) (s : Nat)
    (hg : (decide (100 * m.mlW f w < 82620) && decide (s < 120)) = true) (fuel : Nat)
    (hf : 1 ≤ fuel) :
    utils_grow m false w fuel f s = .error "OSError: cannot open resource" := by
  unfold utils_grow
  exact fitLoop_error_noavail (fun f => m.mlW f w) _ _ _ f s hg fuel hf

theorem overlay_grow_error (m : Metrics) (w : List Char) (f : FontT) (s : Nat)
    (hg : (decide (10 * m.gbW f w < 7776) && decide (s < 120)) = true) (fuel : Nat)
    (hf : 1 ≤ fuel) :
    overlay_grow m false w fuel f s = .error "OSError: cannot open resource" := by
  unfold overlay_grow
  exact fitLoop_error_noavail (fun f => m.gbW f w) _ _ _ f s hg fuel hf

theorem utils_grow_count (m : Metrics) (avail : Bool) (w : List Char) (fuel : Nat)
    (f : FontT) (s : Nat) (f₂ : FontT) (s₂ c₂ : Nat)
    (h : utils_grow m avail w fuel f s = .ok (f₂, s₂, c₂)) : c₂ ≤ (124 - s) / 5 := by
  unfold utils_grow at h
  exact fitLoop_count_le avail _ _ _ _ (fun t => (124 - t) / 5)
    (fun t ht => utils_grow_rank t ht) fuel _ f s f₂ s₂ c₂ (le_refl _) h

theorem overlay_grow_count (m : Metrics) (avail : Bool) (w : List Char) (fuel : Nat)
    (f : FontT) (s : Nat) (f₂ : FontT) (s₂ c₂ : Nat)
    (h : overlay_grow m avail w fuel f s = .ok (f₂, s₂, c₂)) : c₂ ≤ (121 - s) / 2 := by
  unfold overlay_grow at h
  exact fitLoop_count_le avail _ _ _ _ (fun t => (121 - t) / 2)
    (fun t ht => overlay_grow_rank t ht) fuel _ f s f₂ s₂ c₂ (le_refl _) h

theorem utils_shrink_exit (m : Metrics) (w : List Char) (fuel s : Nat) (f₁ : FontT)
    (s₁ c₁ : Nat) (h : utils_shrink m true w fuel (.truetype s) s = .ok (f₁, s₁, c₁)) :
    (c₁ = 0 ∧ f₁ = .truetype s ∧ s₁ = s) ∨
    (1 ≤ c₁ ∧ f₁ = .truetype s₁ ∧ s₁ + 5 ≤ s ∧ 5 ∣ (s - s₁) ∧
      972 < m.mlW (.truetype (s₁ + 5)) w ∧ 30 < s₁ + 5) := by
  unfold utils_shrink at h
  have hx := fitLoop_shrink_exit true (fun f => m.mlW f w) (fun tw => decide (972 < tw))
    (fun t => decide (30 < t)) 5
    (fun t ht => by have := of_decide_eq_true ht; omega) fuel s f₁ s₁ c₁ h
  rcases hx with h1 | ⟨hc, hf, hle, hdvd, hwg, hsg⟩
  · exact Or.inl h1
  · exact Or.inr ⟨hc, hf, hle, hdvd, of_decide_eq_true hwg, of_decide_eq_true hsg⟩

theorem overlay_shrink_exit (m : Metrics) (w : List Char) (fuel s : Nat) (f₁ : FontT)
    (s₁ c₁ : Nat) (h : overlay_shrink m true w fuel (.truetype s) s = .ok (f₁, s₁, c₁)) :
    (c₁ = 0 ∧ f₁ = .truetype s ∧ s₁ = s) ∨
    (1 ≤ c₁ ∧ f₁ = .truetype s₁ ∧ s₁ + 2 ≤ s ∧ 2 ∣ (s - s₁) ∧
      972 < m.gbW (.truetype (s₁ + 2)) w ∧ 10 < s₁ + 2) := by
  unfold overlay_shrink at h
  have hx := fitLoop_shrink_exit true (fun f => m.gbW f w) (fun tw => decide (972 < tw))
    (fun t => decide (10 < t)) 2
    (fun t ht => by have := of_decide_eq_true ht; omega) fuel s f₁ s₁ c₁ h
  rcases hx with h1 | ⟨hc, hf, hle, hdvd, hwg, hsg⟩
  · exact Or.inl h1
  · exact Or.inr ⟨hc, hf, hle, hdvd, of_decide_eq_true hwg, of_decide_eq_true hsg⟩

theorem utils_grow_count_overshoot (m : Metrics) (avail : Bool) (w : List Char)
    (f : FontT) (s : Nat) (hwide : 972 < m.mlW (.truetype (s + 5)) w) (fuel : Nat)
    (f₂ : FontT) (s₂ c₂ : Nat) (h : utils_grow m avail w fuel f s = .ok (f₂, s₂, c₂)) :
    c₂ ≤ 1 := by
  unfold utils_grow at h
  refine fitLoop_count_after_overshoot avail (fun f => m.mlW f w)
    (fun tw => decide (100 * tw < 82620)) (fun t => decide (t < 120)) (fun t => t + 5)
    f s ?_ fuel f₂ s₂ c₂ h
  rw [decide_eq_false_iff_not]
  show ¬ (100 * m.mlW (.truetype (s + 5)) w < 82620)
  omega

theorem overlay_grow_count_overshoot (m : Metrics) (avail : Bool) (w : List Char)
    (f : FontT) (s : Nat) (hwide : 972 < m.gbW (.truetype (s + 2)) w) (fuel : Nat)
    (f₂ : FontT) (s₂ c₂ : Nat) (h : overlay_grow m avail w fuel f s = .ok (f₂, s₂, c₂)) :
    c₂ ≤ 1 := by
  unfold overlay_grow at h
  refine fitLoop_count_after_overshoot avail (fun f => m.gbW f w)
    (fun tw => decide (10 * tw < 7776)) (fun t => decide (t < 120)) (fun t => t + 2)
    f s ?_ fuel f₂ s₂ c₂ h
  rw [decide_eq_false_iff_not]
  show ¬ (10 * m.gbW (.truetype (s + 2)) w < 7776)
  omega

/-- C6: every shrink and grow loop of both scripts terminates, within
(80 - 30) / 5 = 10 shrink iterations and (120 - 80) / 5 = 8 grow
iterations in utils.process_image, and within (80 - 10) / 2 = 35 and
(120 - 80) / 2 = 20 in overlay_quote_on_image: the fuel-indexed loop
value is unchanged by any extra fuel beyond the pipeline's budget (the
while loop reaches its exit condition inside that budget), and the
iteration counts obey the stated bounds, because the size is strictly
monotone while the loop runs and bounded by the size limits. -/
theorem loops_terminate_within_bounds (m : Metrics) (avail : Bool) (w full : List Char)
    (extra : Nat) :
    (utils_shrink m avail w ((if avail then 80 else 40) + extra)
        (if avail then .truetype 80 else .default) (if avail then 80 else 40) =
      utils_shrink m avail w (if avail then 80 else 40)
        (if avail then .truetype 80 else .default) (if avail then 80 else 40)) ∧
    (∀ f₁ s₁ c₁,
      utils_shrink m avail w (if avail then 80 else 40)
          (if avail then .truetype 80 else .default) (if avail then 80 else 40) =
        .ok (f₁, s₁, c₁) →
      c₁ ≤ 10 ∧
      (utils_grow m avail w (120 + extra) f₁ s₁ = utils_grow m avail w 120 f₁ s₁) ∧
      ∀ f₂ s₂ c₂, utils_grow m avail w 120 f₁ s₁ = .ok (f₂, s₂, c₂) → c₂ ≤ 8) ∧
    (overlay_shrink m avail full (80 + extra)
        (if avail then .truetype 80 else .default) 80 =
      overlay_shrink m avail full 80 (if avail then .truetype 80 else .default) 80) ∧
    (∀ f₁ s₁ c₁,
      overlay_shrink m avail full 80 (if avail then .truetype 80 else .default) 80 =
        .ok (f₁, s₁, c₁) →
      c₁ ≤ 35 ∧
      (overlay_grow m avail full (120 + extra) f₁ s₁ = overlay_grow m avail full 120 f₁ s₁) ∧
      ∀ f₂ s₂ c₂, overlay_grow m avail full 120 f₁ s₁ = .ok (f₂, s₂, c₂) → c₂ ≤ 20) := by
  refine ⟨utils_shrink_stable m avail w _ _ extra, ?_,
    overlay_shrink_stable m avail full _ _ extra, ?_⟩
  · intro f₁ s₁ c₁ h
    refine ⟨?_, utils_grow_stable m avail w f₁ s₁ extra, ?_⟩
    · have hc := utils_shrink_count m avail w _ _ _ f₁ s₁ c₁ h
      cases avail <;> simp at hc <;> omega
    · intro f₂ s₂ c₂ h₂
      cases havail : avail
      · subst havail
        cases hg2 : (decide (100 * m.mlW f₁ w < 82620) && decide (s₁ < 120))
        · rw [utils_grow_guard_false m false w f₁ s₁ hg2 120] at h₂
          injection h₂ with h'
          injection h' with e1 e2
          injection e2 with e3 e4
          omega
        · rw [utils_grow_error m w f₁ s₁ hg2 120 (by omega)] at h₂
          exact absurd h₂ (by simp)
      · subst havail
        simp only [if_true] at h
        rcases utils_shrink_exit m w 80 80 f₁ s₁ c₁ h with ⟨hc0, hf, hs⟩ |
          ⟨hc1, hf, hle, hdvd, hwide, hsg⟩
        · subst hs
          have := utils_grow_count m true w 120 f₁ 80 f₂ s₂ c₂ h₂
          omega
        · have := utils_grow_count_overshoot m true w f₁ s₁ hwide 120 f₂ s₂ c₂ h₂
          omega
  · intro f₁ s₁ c₁ h
    refine ⟨?_, overlay_grow_stable m avail full f₁ s₁ extra, ?_⟩
    · have hc := overlay_shrink_count m avail full _ _ _ f₁ s₁ c₁ h
      simp at hc
      omega
    · intro f₂ s₂ c₂ h₂
      cases havail : avail
      · subst havail
        cases hg2 : (decide (10 * m.gbW f₁ full < 7776) && decide (s₁ < 120))
        · rw [overlay_grow_guard_false m false full f₁ s₁ hg2 120] at h₂
          injection h₂ with h'
          injection h' with e1 e2
          injection e2 with e3 e4
          omega
        · rw [overlay_grow_error m full f₁ s₁ hg2 120 (by omega)] at h₂
          exact absurd h₂ (by simp)
      · subst havail
        simp only [if_true] at h
        rcases overlay_shrink_exit m full 80 80 f₁ s₁ c₁ h with ⟨hc0, hf, hs⟩ |
          ⟨hc1, hf, hle, hdvd, hwide, hsg⟩
        · subst hs
          have := overlay_grow_count m true full 120 f₁ 80 f₂ s₂ c₂ h₂
          omega
        · have := overlay_grow_count_overshoot m true full f₁ s₁ hwide 120 f₂ s₂ c₂ h₂
          omega

theorem loops_terminate_within_bounds_witness :
    (0 : Nat) ≤ 10 ∧
    (utils_grow mMid true [] (120 + 3) (.truetype 80) 80 =
      utils_grow mMid true [] 120 (.truetype 80) 80) ∧
    (0 : Nat) ≤ 8 := by
  have h := (loops_terminate_within_bounds mMid true [] [] 3).2.1
    (.truetype 80) 80 0 (by rfl)
  exact ⟨h.1, h.2.1, h.2.2 (.truetype 80) 80 0 (by rfl)⟩

/-- C5 (amended): the shrink trigger (measured width above 972) and the
grow trigger (measured width below 826.2) are disjoint conditions on any
single measured width, but that alone does not prevent both loops from
iterating in one invocation, because a shrink step can overshoot below
the grow threshold.  Under the additional assumption that every 5-point
shrink step on the sizes the loop can visit keeps at least 85 percent of
the measured width — true of near-proportional font metrics — at most
one of the two loops of utils.process_image executes an iteration per
call. -/
theorem shrink_grow_disjoint_of_ratio (m : Metrics) (w : List Char)
    (H : ∀ s, s < 81 → 34 < s → s % 5 = 0 →
      85 * m.mlW (.truetype s) w ≤ 100 * m.mlW (.truetype (s - 5)) w)
    (f₁ : FontT) (s₁ c₁ : Nat)
    (hs : utils_shrink m true w 80 (.truetype 80) 80 = .ok (f₁, s₁, c₁))
    (f₂ : FontT) (s₂ c₂ : Nat)
    (hg : utils_grow m true w 120 f₁ s₁ = .ok (f₂, s₂, c₂)) :
    ¬ (1 ≤ c₁ ∧ 1 ≤ c₂) := by
  rintro ⟨hc1, hc2⟩
  rcases utils_shrink_exit m w 80 80 f₁ s₁ c₁ hs with ⟨hc0, _, _⟩ |
    ⟨_, hf, hle, hdvd, hwide, hsg⟩
  · omega
  · have hfired : (decide (100 * m.mlW f₁ w < 82620) && decide (s₁ < 120)) = true := by
      unfold utils_grow at hg
      exact fitLoop_fired true (fun f => m.mlW f w) _ _ _ 120 f₁ s₁ f₂ s₂ c₂ hg hc2
    have hdec : decide (100 * m.mlW f₁ w < 82620) = true := by
      revert hfired
      cases decide (100 * m.mlW f₁ w < 82620) <;> simp
    have hlt : 100 * m.mlW f₁ w < 82620 := of_decide_eq_true hdec
    have hH := H (s₁ + 5) (by omega) (by omega) (by omega)
    rw [hf] at hlt
    have hred : s₁ + 5 - 5 = s₁ := by omega
    rw [hred] at hH
    omega

theorem shrink_grow_disjoint_of_ratio_witness : ¬ ((1 : Nat) ≤ 2 ∧ (1 : Nat) ≤ 0) :=
  shrink_grow_disjoint_of_ratio mLin [] (by decide) (.truetype 70) 70 2 (by rfl)
    (.truetype 70) 70 0 (by rfl)

/-- C5 counterexample: at the measurement outcome mOsc (width 1000 px at
TrueType size 80, width 500 px at every other size) a single sizing pass
of utils.process_image runs the shrink loop for one iteration (1000 >
972) and then the grow loop — started from the state the shrink loop
converged to — for one iteration (500 < 826.2).  Both loops fire in one
invocation, refuting the claim that they never both execute an
iteration. -/
theorem shrink_and_grow_both_fire_cex :
    utils_shrink mOsc true (wrapped_text_utils cexQuote cexTeacher) 80
        (.truetype 80) 80 = .ok (.truetype 75, 75, 1) ∧
    utils_grow mOsc true (wrapped_text_utils cexQuote cexTeacher) 120
        (.truetype 75) 75 = .ok (.truetype 80, 80, 1) ∧
    (1 : Nat) ≤ 1 ∧ (1 : Nat) ≤ 1 :=
  ⟨rfl, rfl, le_refl 1, le_refl 1⟩

theorem except_bind_ok {α β : Type} {x : Except String α} {f : α → Except String β}
    {b : β} (h : (x >>= f) = .ok b) : ∃ a, x = .ok a ∧ f a = .ok b := by
  cases x with
  | error e => simp [Bind.bind, Except.bind] at h
  | ok a => exact ⟨a, rfl, by simpa [Bind.bind, Except.bind] using h⟩

theorem utils_shrink_ok_of_avail (m : Metrics) (w : List Char) (fuel : Nat) (f : FontT)
    (s : Nat) : ∃ f' s' c, utils_shrink m true w fuel f s = .ok (f', s', c) := by
  unfold utils_shrink
  exact fitLoop_avail_ok _ _ _ _ fuel f s

theorem utils_grow_ok_of_avail (m : Metrics) (w : List Char) (fuel : Nat) (f : FontT)
    (s : Nat) : ∃ f' s' c, utils_grow m true w fuel f s = .ok (f', s', c) := by
  unfold utils_grow
  exact fitLoop_avail_ok _ _ _ _ fuel f s

theorem overlay_shrink_ok_of_avail (m : Metrics) (w : List Char) (fuel : Nat) (f : FontT)
    (s : Nat) : ∃ f' s' c, overlay_shrink m true w fuel f s = .ok (f', s', c) := by
  unfold overlay_shrink
  exact fitLoop_avail_ok _ _ _ _ fuel f s

theorem overlay_grow_ok_of_avail (m : Metrics) (w : List Char) (fuel : Nat) (f : FontT)
    (s : Nat) : ∃ f' s' c, overlay_grow m true w fuel f s = .ok (f', s', c) := by
  unfold overlay_grow
  exact fitLoop_avail_ok _ _ _ _ fuel f s

theorem process_image_ok_shape (m : Metrics) (resp : Except String HTTPResponse)
    (q t : List Char) :
    ∃ f₂ s₂, process_image m true resp q t =
      .ok (chooseBackground (generate_stable_diffusion_image resp),
        position_layout 40 540 (wrapped_text_utils q t) f₂ s₂
          (m.mlW f₂ (wrapped_text_utils q t)) (m.mlH f₂ (wrapped_text_utils q t))) := by
  obtain ⟨f₁, s₁, c₁, h₁⟩ :=
    utils_shrink_ok_of_avail m (wrapped_text_utils q t) 80 (.truetype 80) 80
  obtain ⟨f₂, s₂, c₂, h₂⟩ := utils_grow_ok_of_avail m (wrapped_text_utils q t) 120 f₁ s₁
  refine ⟨f₂, s₂, ?_⟩
  simp [process_image, Bind.bind, Except.bind, h₁, h₂, pure, Except.pure]

theorem overlay_step_ok_shape (m : Metrics) (full : List Char) (font : FontT) (size : Nat)
    (img₀ : Option PILImage) :
    ∃ fB sB, overlay_step m true full font size img₀ =
      .ok (chooseBackground img₀,
        position_layout 20 756 full fB sB (m.mlW fB full) (m.mlH fB full), fB, sB) := by
  obtain ⟨fA, sA, cA, h₁⟩ := overlay_shrink_ok_of_avail m full size font size
  obtain ⟨fB, sB, cB, h₂⟩ := overlay_grow_ok_of_avail m full 120 fA sA
  refine ⟨fB, sB, ?_⟩
  simp [overlay_step, Bind.bind, Except.bind, h₁, h₂, pure, Except.pure]

theorem overlay_step_ok_inv (m : Metrics) (avail : Bool) (full : List Char) (font : FontT)
    (size : Nat) (img₀ : Option PILImage) (bg : PILImage) (l : Layout) (f' : FontT)
    (s' : Nat) (h : overlay_step m avail full font size img₀ = .ok (bg, l, f', s')) :
    bg = chooseBackground img₀ ∧
    l = position_layout 20 756 full f' s' (m.mlW f' full) (m.mlH f' full) := by
  simp only [overlay_step] at h
  obtain ⟨⟨fA, sA, cA⟩, h₁, h⟩ := except_bind_ok h
  simp only at h
  obtain ⟨⟨fB, sB, cB⟩, h₂, h⟩ := except_bind_ok h
  simp only [pure, Except.pure, Except.ok.injEq, Prod.mk.injEq] at h
  obtain ⟨hbg, hl, hf, hs⟩ := h
  subst hf
  subst hs
  exact ⟨hbg.symm, hl.symm⟩

theorem process_image_ok_inv (m : Metrics) (avail : Bool)
    (resp : Except String HTTPResponse) (q t : List Char) (bg : PILImage) (l : Layout)
    (h : process_image m avail resp q t = .ok (bg, l)) :
    bg = chooseBackground (generate_stable_diffusion_image resp) ∧
    ∃ f₂ s₂, l = position_layout 40 540 (wrapped_text_utils q t) f₂ s₂
      (m.mlW f₂ (wrapped_text_utils q t)) (m.mlH f₂ (wrapped_text_utils q t)) := by
  simp only [process_image] at h
  obtain ⟨⟨f₁, s₁, c₁⟩, h₁, h⟩ := except_bind_ok h
  simp only at h
  obtain ⟨⟨f₂, s₂, c₂⟩, h₂, h⟩ := except_bind_ok h
  simp only [pure, Except.pure, Except.ok.injEq, Prod.mk.injEq] at h
  obtain ⟨hbg, hl⟩ := h
  exact ⟨hbg.symm, f₂, s₂, hl.symm⟩

theorem position_layout_rect (pad : Nat) (clampY : Int) (w : List Char) (f : FontT)
    (size tw th : Nat) :
    (position_layout pad clampY w f size tw th).rectX1 =
      (position_layout pad clampY w f size tw th).textX - pad ∧
    (position_layout pad clampY w f size tw th).rectY1 =
      (position_layout pad clampY w f size tw th).textY - pad ∧
    (position_layout pad clampY w f size tw th).rectX2 =
      (position_layout pad clampY w f size tw th).textX +
        (position_layout pad clampY w f size tw th).textW + pad ∧
    (position_layout pad clampY w f size tw th).rectY2 =
      (position_layout pad clampY w f size tw th).textY +
        (position_layout pad clampY w f size tw th).textH + pad :=
  ⟨rfl, rfl, rfl, rfl⟩

theorem position_layout_in_bounds (pad : Nat) (clampY : Int) (w : List Char) (f : FontT)
    (size tw th : Nat) (hcy : 0 ≤ clampY) (htw : tw ≤ 1080)
    (hth : (th : Int) ≤ 1080 - clampY) :
    0 ≤ (position_layout pad clampY w f size tw th).textX ∧
    (position_layout pad clampY w f size tw th).textX + (tw : Int) ≤ 1080 ∧
    0 ≤ (position_layout pad clampY w f size tw th).textY ∧
    (position_layout pad clampY w f size tw th).textY + (th : Int) ≤ 1080 := by
  have hcast : (1080 : Int) - (tw : Int) = ((1080 - tw : Nat) : Int) := by omega
  have hdiv : Int.fdiv ((1080 - tw : Nat) : Int) 2 = (((1080 - tw) / 2 : Nat) : Int) :=
    (Int.ofNat_fdiv (1080 - tw) 2).symm
  have hdle : (1080 - tw) / 2 ≤ 1080 - tw := Nat.div_le_self _ _
  unfold position_layout
  simp only [hcast, hdiv]
  refine ⟨by omega, by omega, ?_, ?_⟩
  · split <;> omega
  · split <;> omega

/-- C1: when the scalable font resource is unavailable, both scripts take
the bitmap-font fallback branch but do not skip the sizing loops: at the
bitmap font's tiny measured width the grow loop's trigger holds, the loop
body calls ImageFont.truetype on the missing Arial.ttf again, and the
uncaught OSError aborts the run.  Evaluated here at the default-font
measurement outcome mTiny for a concrete quote. -/
theorem fallback_font_aborts_run :
    process_image mTiny false respFail cexQuote cexTeacher =
      .error "OSError: cannot open resource" ∧
    overlay_quote_on_image mTiny false cexQuote none respFail =
      .error "OSError: cannot open resource" :=
  ⟨rfl, rfl⟩

/-- C2 (amended): the composited text bounding box lies fully within the
1080 x 1080 canvas provided the measured text is no wider than the canvas
and no taller than the canvas bottom minus the clamp line: 1080 - 756 =
324 px for overlay_quote_on_image's 0.7 clamp and 1080 - 540 = 540 px for
utils.process_image's 0.5 clamp.  Taller text blocks are pushed down by
the clamp and their bottom edge extends past the canvas bottom (see the
counterexample). -/
theorem text_box_in_bounds (m : Metrics) (avail : Bool) :
    (∀ (full : List Char) (font : FontT) (size : Nat) (img₀ : Option PILImage)
        (bg : PILImage) (l : Layout) (f' : FontT) (s' : Nat),
      overlay_step m avail full font size img₀ = .ok (bg, l, f', s') →
      l.textW ≤ 1080 → l.textH ≤ 324 →
      0 ≤ l.textX ∧ l.textX + (l.textW : Int) ≤ 1080 ∧
        0 ≤ l.textY ∧ l.textY + (l.textH : Int) ≤ 1080) ∧
    (∀ (resp : Except String HTTPResponse) (q t : List Char) (bg : PILImage) (l : Layout),
      process_image m avail resp q t = .ok (bg, l) →
      l.textW ≤ 1080 → l.textH ≤ 540 →
      0 ≤ l.textX ∧ l.textX + (l.textW : Int) ≤ 1080 ∧
        0 ≤ l.textY ∧ l.textY + (l.textH : Int) ≤ 1080) := by
  constructor
  · intro full font size img₀ bg l f' s' h htw hth
    obtain ⟨-, hl⟩ := overlay_step_ok_inv m avail full font size img₀ bg l f' s' h
    subst hl
    have htw' : m.mlW f' full ≤ 1080 := htw
    have hth' : m.mlH f' full ≤ 324 := hth
    exact position_layout_in_bounds 20 756 full f' s' _ _ (by norm_num) htw' (by omega)
  · intro resp q t bg l h htw hth
    obtain ⟨-, f₂, s₂, hl⟩ := process_image_ok_inv m avail resp q t bg l h
    subst hl
    have htw' : m.mlW f₂ (wrapped_text_utils q t) ≤ 1080 := htw
    have hth' : m.mlH f₂ (wrapped_text_utils q t) ≤ 540 := hth
    exact position_layout_in_bounds 40 540 _ f₂ s₂ _ _ (by norm_num) htw' (by omega)

theorem text_box_in_bounds_witness :
    0 ≤ (position_layout 20 756 [] (.truetype 80) 80 900 300).textX ∧
    (position_layout 20 756 [] (.truetype 80) 80 900 300).textX +
      ((position_layout 20 756 [] (.truetype 80) 80 900 300).textW : Int) ≤ 1080 ∧
    0 ≤ (position_layout 20 756 [] (.truetype 80) 80 900 300).textY ∧
    (position_layout 20 756 [] (.truetype 80) 80 900 300).textY +
      ((position_layout 20 756 [] (.truetype 80) 80 900 300).textH : Int) ≤ 1080 :=
  (text_box_in_bounds mMid true).1 [] (.truetype 80) 80 none gray_canvas
    (position_layout 20 756 [] (.truetype 80) 80 900 300) (.truetype 80) 80 rfl
    (by decide) (by decide)

/-- C2 counterexample: at the measurement outcome mTall (text 900 px wide
and 400 px tall at the converged size) the overlay pipeline clamps the
text top to 756, so the bottom edge of the text block sits at 756 + 400 =
1156, which extends 76 px past the canvas bottom edge of 1080 — the
claimed containment fails. -/
theorem bottom_edge_outside_canvas_cex :
    (overlay_quote_on_image mTall true cexQuote none respFail).map
      (List.map (fun p => p.2.textY + (p.2.textH : Int))) = .ok [1156, 1156] ∧
    (1080 : Int) < 1156 :=
  ⟨rfl, by decide⟩

/-- C3 (amended): the panel rectangle equals the text bounding box
expanded by exactly rect_padding on each of the four sides (20 px in
overlay_quote_on_image, 40 px in utils.process_image); no clipping to the
canvas is applied, and the resulting coordinates can lie outside the
canvas (see the counterexample). -/
theorem panel_rect_exact_expansion (m : Metrics) (avail : Bool) :
    (∀ (full : List Char) (font : FontT) (size : Nat) (img₀ : Option PILImage)
        (bg : PILImage) (l : Layout) (f' : FontT) (s' : Nat),
      overlay_step m avail full font size img₀ = .ok (bg, l, f', s') →
      l.rectX1 = l.textX - 20 ∧ l.rectY1 = l.textY - 20 ∧
        l.rectX2 = l.textX + (l.textW : Int) + 20 ∧
        l.rectY2 = l.textY + (l.textH : Int) + 20) ∧
    (∀ (resp : Except String HTTPResponse) (q t : List Char) (bg : PILImage) (l : Layout),
      process_image m avail resp q t = .ok (bg, l) →
      l.rectX1 = l.textX - 40 ∧ l.rectY1 = l.textY - 40 ∧
        l.rectX2 = l.textX + (l.textW : Int) + 40 ∧
        l.rectY2 = l.textY + (l.textH : Int) + 40) := by
  constructor
  · intro full font size img₀ bg l f' s' h
    obtain ⟨-, hl⟩ := overlay_step_ok_inv m avail full font size img₀ bg l f' s' h
    subst hl
    exact ⟨rfl, rfl, rfl, rfl⟩
  · intro resp q t bg l h
    obtain ⟨-, f₂, s₂, hl⟩ := process_image_ok_inv m avail resp q t bg l h
    subst hl
    exact ⟨rfl, rfl, rfl, rfl⟩

theorem panel_rect_exact_expansion_witness :
    (position_layout 20 756 [] (.truetype 80) 80 900 300).rectX1 =
      (position_layout 20 756 [] (.truetype 80) 80 900 300).textX - 20 ∧
    (position_layout 20 756 [] (.truetype 80) 80 900 300).rectY1 =
      (position_layout 20 756 [] (.truetype 80) 80 900 300).textY - 20 ∧
    (position_layout 20 756 [] (.truetype 80) 80 900 300).rectX2 =
      (position_layout 20 756 [] (.truetype 80) 80 900 300).textX +
        ((position_layout 20 756 [] (.truetype 80) 80 900 300).textW : Int) + 20 ∧
    (position_layout 20 756 [] (.truetype 80) 80 900 300).rectY2 =
      (position_layout 20 756 [] (.truetype 80) 80 900 300).textY +
        ((position_layout 20 756 [] (.truetype 80) 80 900 300).textH : Int) + 20 :=
  (panel_rect_exact_expansion mMid true).1 [] (.truetype 80) 80 none gray_canvas
    (position_layout 20 756 [] (.truetype 80) 80 900 300) (.truetype 80) 80 rfl

/-- C3 counterexample: at the measurement outcome mTall2 (text 900 px
wide, 600 px tall) utils.process_image clamps the text top to 540 and
derives the panel bottom at 540 + 600 + 40 = 1180, a coordinate 100 px
outside the 1080-px canvas: the panel rectangle is not clipped to canvas
bounds. -/
theorem panel_rect_outside_canvas_cex :
    (process_image mTall2 true respFail cexQuote cexTeacher).map
      (fun r => r.2.rectY2) = .ok 1180 ∧ (1080 : Int) < 1180 :=
  ⟨rfl, by decide⟩

/-- C7: whenever the portrait provider yields no image — a transport
failure or a CONTENT_FILTERED finish-reason header — the caller
substitutes the solid neutral-gray 1080 x 1080 canvas as the background
and, with the font resource present, the run continues through layout:
the pipeline returns a successful result whose background is exactly the
gray canvas.  The overlay pipeline likewise substitutes the gray canvas
for the failed Stability call and still produces both composites. -/
theorem portrait_failure_gray_fallback (m : Metrics) (resp : Except String HTTPResponse)
    (q t : List Char) (i₁ : Option PILImage)
    (h : generate_stable_diffusion_image resp = none) :
    (process_image m true resp q t).map Prod.fst = .ok gray_canvas ∧
    (overlay_quote_on_image m true q i₁ resp).map (List.map Prod.fst) =
      .ok [chooseBackground i₁, gray_canvas] := by
  constructor
  · obtain ⟨f₂, s₂, hshape⟩ := process_image_ok_shape m resp q t
    rw [hshape]
    simp [Except.map, h, chooseBackground]
  · obtain ⟨fB, sB, h1⟩ := overlay_step_ok_shape m
      (full_text_overlay (overlay_split q).1 (overlay_split q).2) (.truetype 80) 80 i₁
    obtain ⟨fB₂, sB₂, h2⟩ := overlay_step_ok_shape m
      (full_text_overlay (overlay_split q).1 (overlay_split q).2) fB sB
      (generate_stable_diffusion_image resp)
    rw [h] at h2
    simp [overlay_quote_on_image, Bind.bind, Except.bind, h1, h2, pure, Except.pure,
      Except.map, h, chooseBackground]

theorem portrait_failure_gray_fallback_witness :
    (process_image mMid true respFiltered cexQuote cexTeacher).map Prod.fst =
      .ok gray_canvas ∧
    (overlay_quote_on_image mMid true cexQuote none respFiltered).map
      (List.map Prod.fst) = .ok [chooseBackground none, gray_canvas] :=
  portrait_failure_gray_fallback mMid respFiltered cexQuote cexTeacher none rfl

theorem overlay_step_layout_indep (m : Metrics) (avail : Bool) (full : List Char)
    (f : FontT) (s : Nat) (i i' : Option PILImage) :
    (overlay_step m avail full f s i).map (fun x => (x.2.1, x.2.2.1, x.2.2.2)) =
      (overlay_step m avail full f s i').map (fun x => (x.2.1, x.2.2.1, x.2.2.2)) := by
  unfold overlay_step
  cases h₁ : overlay_shrink m avail full s f s with
  | error e => simp [Bind.bind, Except.bind, h₁, Except.map]
  | ok x =>
    rcases x with ⟨fA, sA, cA⟩
    cases h₂ : overlay_grow m avail full 120 fA sA with
    | error e => simp [Bind.bind, Except.bind, h₁, h₂, Except.map]
    | ok y =>
      rcases y with ⟨fB, sB, cB⟩
      simp [Bind.bind, Except.bind, h₁, h₂, pure, Except.pure, Except.map]

/-- C9: in overlay_quote_on_image the font object and font size are
initialized once before the provider loop and never reset inside it: the
run is exactly the two-step composition in which the second provider's
shrink/grow loops start from the font state the first provider's
iteration converged to.  Moreover the converged layouts (and hence the
rendered font sizes) are a function of the text measurements alone:
replacing either provider's image outcome leaves every layout's font
size unchanged. -/
theorem overlay_font_state_threading (m : Metrics) (avail : Bool) (q : List Char)
    (i₁ i₁' : Option PILImage) (r r' : Except String HTTPResponse) :
    (overlay_quote_on_image m avail q i₁ r =
      (overlay_step m avail (full_text_overlay (overlay_split q).1 (overlay_split q).2)
          (if avail then .truetype 80 else .default) 80 i₁) >>= fun x =>
        (overlay_step m avail (full_text_overlay (overlay_split q).1 (overlay_split q).2)
            x.2.2.1 x.2.2.2 (generate_stable_diffusion_image r)) >>= fun y =>
          pure [(x.1, x.2.1), (y.1, y.2.1)]) ∧
    ((overlay_quote_on_image m avail q i₁ r).map (List.map (fun p => p.2.fontSize)) =
      (overlay_quote_on_image m avail q i₁' r').map (List.map (fun p => p.2.fontSize))) := by
  constructor
  · rfl
  · simp only [overlay_quote_on_image]
    have hstep1 := overlay_step_layout_indep m avail
      (full_text_overlay (overlay_split q).1 (overlay_split q).2)
      (if avail then .truetype 80 else .default) 80 i₁ i₁'
    cases h1 : overlay_step m avail
        (full_text_overlay (overlay_split q).1 (overlay_split q).2)
        (if avail then .truetype 80 else .default) 80 i₁ with
    | error e =>
      rw [h1] at hstep1
      cases h1' : overlay_step m avail
          (full_text_overlay (overlay_split q).1 (overlay_split q).2)
          (if avail then .truetype 80 else .default) 80 i₁' with
      | error e' =>
        rw [h1'] at hstep1
        simp only [Except.map, Except.error.injEq] at hstep1
        subst hstep1
        simp [Bind.bind, Except.bind, h1, h1', Except.map]
      | ok x' =>
        rw [h1'] at hstep1
        simp [Except.map] at hstep1
    | ok x =>
      rcases x with ⟨bg1, l1, fS1, sS1⟩
      cases h1' : overlay_step m avail
          (full_text_overlay (overlay_split q).1 (overlay_split q).2)
          (if avail then .truetype 80 else .default) 80 i₁' with
      | error e' =>
        rw [h1, h1'] at hstep1
        simp [Except.map] at hstep1
      | ok x' =>
        rcases x' with ⟨bg1', l1', fS1', sS1'⟩
        rw [h1, h1'] at hstep1
        simp only [Except.map, Except.ok.injEq, Prod.mk.injEq] at hstep1
        obtain ⟨hl, hf, hs⟩ := hstep1
        subst hl
        subst hf
        subst hs
        have hstep2 := overlay_step_layout_indep m avail
          (full_text_overlay (overlay_split q).1 (overlay_split q).2) fS1 sS1
          (generate_stable_diffusion_image r) (generate_stable_diffusion_image r')
        cases h2 : overlay_step m avail
            (full_text_overlay (overlay_split q).1 (overlay_split q).2) fS1 sS1
            (generate_stable_diffusion_image r) with
        | error e2 =>
          rw [h2] at hstep2
          cases h2' : overlay_step m avail
              (full_text_overlay (overlay_split q).1 (overlay_split q).2) fS1 sS1
              (generate_stable_diffusion_image r') with
          | error e2' =>
            rw [h2'] at hstep2
            simp only [Except.map, Except.error.injEq] at hstep2
            subst hstep2
            simp [Bind.bind, Except.bind, h1, h1', h2, h2', Except.map]
          | ok y' =>
            rw [h2'] at hstep2
            simp [Except.map] at hstep2
        | ok y =>
          rcases y with ⟨bg2, l2, fS2, sS2⟩
          cases h2' : overlay_step m avail
              (full_text_overlay (overlay_split q).1 (overlay_split q).2) fS1 sS1
              (generate_stable_diffusion_image r') with
          | error e2' =>
            rw [h2, h2'] at hstep2
            simp [Except.map] at hstep2
          | ok y' =>
            rcases y' with ⟨bg2', l2', fS2', sS2'⟩
            rw [h2, h2'] at hstep2
            simp only [Except.map, Except.ok.injEq, Prod.mk.injEq] at hstep2
            obtain ⟨hl2, hf2, hs2⟩ := hstep2
            subst hl2
            subst hf2
            subst hs2
            simp [Bind.bind, Except.bind, h1, h1', h2, h2', pure, Except.pure, Except.map]
